import Mathlib

/-!
Verification of the core of the `iridium` voxel-world repository.

The Rust source (`src/math.rs`, `src/world.rs`) is shallowly embedded here.
Machine floats (`f32`) are modelled as exact rationals (`ℚ`); `u32`/`usize`
are modelled as `ℕ` and `i32` as `ℤ`.  Rust's `as usize` / `as i32` casts on
floats truncate toward zero (saturating below at 0 for `usize`), which is
modelled by `truncQ` / `toUsize`; `f32::fract` is `self - self.trunc()`,
modelled by `fractQ`.  Vector indexing `v[i]` is modelled with `List.getD`
(the in-bounds cases are exactly the ones the source reaches, see the
indexing theorems below).
-/

namespace Iridium

/-- Rust `as i32` on a nonnegative-or-negative rational: truncation toward
zero (`f32 as i32` rounds toward zero). -/
def truncQ (q : ℚ) : ℤ := if 0 ≤ q then ⌊q⌋ else ⌈q⌉

/-- Rust `as usize` on a rational: truncation toward zero, saturating at 0
for negative inputs. -/
def toUsize (q : ℚ) : ℕ := (truncQ q).toNat

/-- Rust `f32::fract`: `self - self.trunc()`. -/
def fractQ (q : ℚ) : ℚ := q - (truncQ q : ℚ)

/-- Source `math.rs`: `Vec2(f32, f32)`; field `.x` is component `.0`, `.y` is `.1`. -/
structure Vec2 where
  x : ℚ
  y : ℚ
deriving DecidableEq

/-- Source `math.rs`: `Vec2::dot`. -/
def Vec2.dot (a b : Vec2) : ℚ := a.x * b.x + a.y * b.y

/-- Source `math.rs`: `impl Sub for Vec2`. -/
def Vec2.sub (a b : Vec2) : Vec2 := ⟨a.x - b.x, a.y - b.y⟩

/-- Source `math.rs`: `impl Div<f32> for Vec2`. -/
def Vec2.divScalar (a : Vec2) (denominator : ℚ) : Vec2 :=
  ⟨a.x / denominator, a.y / denominator⟩

/-- Source `math.rs`: `Vec3(f32, f32, f32)`. -/
structure Vec3 where
  x : ℚ
  y : ℚ
  z : ℚ
deriving DecidableEq

/-- Source `math.rs`: `Vec3::set_x`. -/
def Vec3.set_x (v : Vec3) (new_x : ℚ) : Vec3 := ⟨new_x, v.y, v.z⟩

/-- Source `math.rs`: `Vec3::set_y`. -/
def Vec3.set_y (v : Vec3) (new_y : ℚ) : Vec3 := ⟨v.x, new_y, v.z⟩

/-- Source `math.rs`: `Vec3::set_z`. -/
def Vec3.set_z (v : Vec3) (new_z : ℚ) : Vec3 := ⟨v.x, v.y, new_z⟩

/-- Source `Vec3::map_x` as used by `world.rs` (`start.map_x(|x| x + distance)`):
applies the function to the x component, keeping the others. -/
def Vec3.map_x (v : Vec3) (f : ℚ → ℚ) : Vec3 := ⟨f v.x, v.y, v.z⟩

/-- Source `Vec3::map_y` as used by `world.rs`. -/
def Vec3.map_y (v : Vec3) (f : ℚ → ℚ) : Vec3 := ⟨v.x, f v.y, v.z⟩

/-- Source `Vec3::map_z` as used by `world.rs`. -/
def Vec3.map_z (v : Vec3) (f : ℚ → ℚ) : Vec3 := ⟨v.x, v.y, f v.z⟩

/-- Source `math.rs`: `Vec3::xz`. -/
def Vec3.xz (v : Vec3) : Vec2 := ⟨v.x, v.z⟩

/-- Source `math.rs`: `interpolate(value_a, value_b, t) = (1.0 - t) * value_a + t * value_b`. -/
def interpolate (value_a value_b t : ℚ) : ℚ := (1 - t) * value_a + t * value_b

/-- Source `world.rs`: `Heightmap` — a Perlin-noise grid; `gradients` holds one
gradient per grid corner, `(num_x_cells + 1) * (num_z_cells + 1)` in total
(pushed row-major, x varying fastest, by `Heightmap::new` /
`Heightmap::with_gradients`). -/
structure Heightmap where
  cell_size : ℚ
  num_x_cells : ℕ
  num_z_cells : ℕ
  gradients : List Vec2

/-- Source `world.rs`: `Heightmap::gradient_at_index(xi, zi)`:
`self.gradients[zi * self.num_x_cells as usize + xi]`.  (Note the row
stride used here is `num_x_cells`, not `num_x_cells + 1`.) -/
def Heightmap.gradient_at_index (hm : Heightmap) (xi zi : ℕ) : Vec2 :=
  hm.gradients.getD (zi * hm.num_x_cells + xi) ⟨0, 0⟩

/-- Source `world.rs`: `Heightmap::min_x`. -/
def Heightmap.min_x (_hm : Heightmap) : ℚ := 0

/-- Source `world.rs`: `Heightmap::max_x = cell_size * num_x_cells`. -/
def Heightmap.max_x (hm : Heightmap) : ℚ := hm.cell_size * hm.num_x_cells

/-- Source `world.rs`: `Heightmap::min_z`. -/
def Heightmap.min_z (_hm : Heightmap) : ℚ := 0

/-- Source `world.rs`: `Heightmap::max_z = cell_size * num_z_cells`. -/
def Heightmap.max_z (hm : Heightmap) : ℚ := hm.cell_size * hm.num_z_cells

/-- Source `world.rs`: `Heightmap::is_out_of_range`:
`x < min_x || x >= max_x || z < min_z || z >= max_z`. -/
def Heightmap.is_out_of_range (hm : Heightmap) (p : Vec2) : Prop :=
  p.x < hm.min_x ∨ hm.max_x ≤ p.x ∨ p.y < hm.min_z ∨ hm.max_z ≤ p.y

instance (hm : Heightmap) (p : Vec2) : Decidable (hm.is_out_of_range p) := by
  unfold Heightmap.is_out_of_range
  infer_instance

/-- Source `world.rs`: `Heightmap::normalize_position = *xz_position / self.cell_size`. -/
def Heightmap.normalize_position (hm : Heightmap) (p : Vec2) : Vec2 :=
  p.divScalar hm.cell_size

/-- Source `world.rs`: `Heightmap::height_at_x0z0`. -/
def Heightmap.height_at_x0z0 (hm : Heightmap) (np : Vec2) : ℚ :=
  let xi := toUsize np.x
  let zi := toUsize np.y
  let corner_position : Vec2 := ⟨(xi : ℚ), (zi : ℚ)⟩
  let gradient := hm.gradient_at_index xi zi
  let offset := np.sub corner_position
  gradient.dot offset

/-- Source `world.rs`: `Heightmap::height_at_x1z0` (`xi = x as usize + 1`). -/
def Heightmap.height_at_x1z0 (hm : Heightmap) (np : Vec2) : ℚ :=
  let xi := toUsize np.x + 1
  let zi := toUsize np.y
  let corner_position : Vec2 := ⟨(xi : ℚ), (zi : ℚ)⟩
  let gradient := hm.gradient_at_index xi zi
  let offset := np.sub corner_position
  gradient.dot offset

/-- Source `world.rs`: `Heightmap::height_at_x0z1` (`zi = z as usize + 1`). -/
def Heightmap.height_at_x0z1 (hm : Heightmap) (np : Vec2) : ℚ :=
  let xi := toUsize np.x
  let zi := toUsize np.y + 1
  let corner_position : Vec2 := ⟨(xi : ℚ), (zi : ℚ)⟩
  let gradient := hm.gradient_at_index xi zi
  let offset := np.sub corner_position
  gradient.dot offset

/-- Source `world.rs`: `Heightmap::height_at_x1z1`. -/
def Heightmap.height_at_x1z1 (hm : Heightmap) (np : Vec2) : ℚ :=
  let xi := toUsize np.x + 1
  let zi := toUsize np.y + 1
  let corner_position : Vec2 := ⟨(xi : ℚ), (zi : ℚ)⟩
  let gradient := hm.gradient_at_index xi zi
  let offset := np.sub corner_position
  gradient.dot offset

/-- Source `world.rs`: `Heightmap::height_at`: 0.0 when out of range, otherwise the
bilinear interpolation of the four corner contributions of the normalized
position, remapped at the end by `(height + 1.0) * 0.5`. -/
def Heightmap.height_at (hm : Heightmap) (xz_position : Vec2) : ℚ :=
  if hm.is_out_of_range xz_position then 0
  else
    let normalized_position := hm.normalize_position xz_position
    let x0z0_height := hm.height_at_x0z0 normalized_position
    let x0z1_height := hm.height_at_x0z1 normalized_position
    let x1z0_height := hm.height_at_x1z0 normalized_position
    let x1z1_height := hm.height_at_x1z1 normalized_position
    let x_frac := fractQ normalized_position.x
    let z_frac := fractQ normalized_position.y
    let x0_height := interpolate x0z0_height x0z1_height z_frac
    let x1_height := interpolate x1z0_height x1z1_height z_frac
    let height := interpolate x0_height x1_height x_frac
    (height + 1) * (1 / 2)

/-- Source `world.rs`: `Coordinates(u32, u32, u32)`. -/
structure Coordinates where
  cx : ℕ
  cy : ℕ
  cz : ℕ

/-- Source `world.rs`: `Coordinates::center` — each component plus 0.5. -/
def Coordinates.center (c : Coordinates) : Vec3 :=
  ⟨(c.cx : ℚ) + 1 / 2, (c.cy : ℚ) + 1 / 2, (c.cz : ℚ) + 1 / 2⟩

/-- Source `world.rs`: `Terrain` — fixed-size column-height grid. -/
structure Terrain where
  x_width : ℕ
  z_depth : ℕ
  heights : List ℤ
deriving DecidableEq

/-- The body of the inner loop of `Terrain::from_heightmap` for column
`(x, z)`: sample the heightmap at the column's center and scale,
`(height * height_range as f32) as i32 + min_height` with `min_height = 1`. -/
def scaled_height (hm : Heightmap) (height_range : ℕ) (x z : ℕ) : ℤ :=
  let xz_position := (Coordinates.mk x 0 z).center.xz
  let height := hm.height_at xz_position
  truncQ (height * (height_range : ℚ)) + 1

/-- Source `world.rs`: `Terrain::from_heightmap` — pushes the scaled height of every
column, `x` in the outer loop and `z` in the inner loop. -/
def Terrain.from_heightmap (hm : Heightmap) (x_width y_height z_depth : ℕ) : Terrain :=
  let min_height : ℕ := 1
  let height_range : ℕ := y_height - min_height
  let heights := (List.range x_width).flatMap fun x =>
    (List.range z_depth).map fun z => scaled_height hm height_range x z
  ⟨x_width, z_depth, heights⟩

/-- Source `world.rs`: `Terrain::height_at(x, z)` — 0 outside
`[0, x_width) × [0, z_depth)`, otherwise `heights[(x_width * z) + x]`. -/
def Terrain.height_at (t : Terrain) (x z : ℤ) : ℤ :=
  if x < 0 ∨ (t.x_width : ℤ) ≤ x ∨ z < 0 ∨ (t.z_depth : ℤ) ≤ z then 0
  else t.heights.getD ((t.x_width : ℤ) * z + x).toNat 0

/-- Source `world.rs`: `Terrain::decrement_height_at(x, z)` — in range and stored
height positive: subtract one; otherwise leave the terrain unchanged. -/
def Terrain.decrement_height_at (t : Terrain) (x z : ℤ) : Terrain :=
  if 0 ≤ x ∧ x < (t.x_width : ℤ) ∧ 0 ≤ z ∧ z < (t.z_depth : ℤ) then
    if 0 < t.heights.getD ((t.x_width : ℤ) * z + x).toNat 0 then
      { t with heights := (t.heights.set ((t.x_width : ℤ) * z + x).toNat
          (t.heights.getD ((t.x_width : ℤ) * z + x).toNat 0 - 1)) }
    else t
  else t

/-- Source `world.rs`: `GlobalIndex(i32, i32, i32)` — an integer voxel cell. -/
structure GlobalIndex where
  x : ℤ
  y : ℤ
  z : ℤ
deriving DecidableEq

/-- Source `world.rs`: `impl From<Vec3> for GlobalIndex` — floor each component.
(`value.x().floor() as i32`; `from` is a Lean keyword, hence `fromVec3`.) -/
def GlobalIndex.fromVec3 (value : Vec3) : GlobalIndex :=
  ⟨⌊value.x⌋, ⌊value.y⌋, ⌊value.z⌋⟩

/-- Source `world.rs`: `Block` — one occupied voxel, wrapping its `GlobalIndex`. -/
structure Block where
  index : GlobalIndex
deriving DecidableEq

/-- Source `world.rs`: `Block::left = index.x as f32`. -/
def Block.left (b : Block) : ℚ := (b.index.x : ℚ)

/-- Source `world.rs`: `Block::right = (index.x + 1) as f32`. -/
def Block.right (b : Block) : ℚ := ((b.index.x + 1 : ℤ) : ℚ)

/-- Source `world.rs`: `Block::top = (index.y + 1) as f32`. -/
def Block.top (b : Block) : ℚ := ((b.index.y + 1 : ℤ) : ℚ)

/-- Source `world.rs`: `Block::bottom = index.y as f32`. -/
def Block.bottom (b : Block) : ℚ := (b.index.y : ℚ)

/-- Source `world.rs`: `Block::near = index.z as f32`. -/
def Block.near (b : Block) : ℚ := (b.index.z : ℚ)

/-- Source `world.rs`: `Block::far = (index.z + 1) as f32`. -/
def Block.far (b : Block) : ℚ := ((b.index.z + 1 : ℤ) : ℚ)

/-- Source `world.rs`: `Terrain::block_at(index)` — `Some(Block)` iff
`height_at(index.x, index.z) >= index.y`. -/
def Terrain.block_at (t : Terrain) (index : GlobalIndex) : Option Block :=
  if index.y ≤ t.height_at index.x index.z then some ⟨index⟩ else none

/-- The occupancy test of `Terrain::block_at`: `block_at index` is
`Some(Block(index))` exactly when this is `true`. -/
def occupied_at (t : Terrain) (index : GlobalIndex) : Bool :=
  decide (index.y ≤ t.height_at index.x index.z)

/-- Source `world.rs`: the sequence of values yielded by the `BidirectionalRange`
iterator from `start` to `end` inclusive: ascending by `+1` when
`start ≤ end`, descending by `-1` otherwise. -/
def bidirectionalRange (start e : ℤ) : List ℤ :=
  if start ≤ e then (List.range (e - start + 1).toNat).map fun i : ℕ => start + (i : ℤ)
  else (List.range (start - e + 1).toNat).map fun i : ℕ => start - (i : ℤ)

/-- Source `world.rs`: `GlobalIndexRange::along_x_axis(start, distance)` as the list
of voxel cells yielded: x varies from the start cell's x to the cell of
`start.map_x(|x| x + distance)`, y and z fixed at the start cell's. -/
def alongXAxis (start : Vec3) (distance : ℚ) : List GlobalIndex :=
  let start_index := GlobalIndex.fromVec3 start
  let end_index := GlobalIndex.fromVec3 (start.map_x fun x => x + distance)
  (bidirectionalRange start_index.x end_index.x).map fun x =>
    ⟨x, start_index.y, start_index.z⟩

/-- Source `world.rs`: `GlobalIndexRange::along_y_axis(start, distance)`. -/
def alongYAxis (start : Vec3) (distance : ℚ) : List GlobalIndex :=
  let start_index := GlobalIndex.fromVec3 start
  let end_index := GlobalIndex.fromVec3 (start.map_y fun y => y + distance)
  (bidirectionalRange start_index.y end_index.y).map fun y =>
    ⟨start_index.x, y, start_index.z⟩

/-- Source `world.rs`: `GlobalIndexRange::along_z_axis(start, distance)`. -/
def alongZAxis (start : Vec3) (distance : ℚ) : List GlobalIndex :=
  let start_index := GlobalIndex.fromVec3 start
  let end_index := GlobalIndex.fromVec3 (start.map_z fun z => z + distance)
  (bidirectionalRange start_index.z end_index.z).map fun z =>
    ⟨start_index.x, start_index.y, z⟩

/-- Source `world.rs`: `BUFFER_DISTANCE = 0.02` (`0.02 = 1/50`). -/
def BUFFER_DISTANCE : ℚ := 1 / 50

/-- Source `world.rs`: `World::check_for_collisions_in_x_axis` — scan the x-axis
voxel range with the first cell skipped (`range.skip(1).find_map(...)`) for
an occupied block and clamp, else move the full distance. -/
def check_for_collisions_in_x_axis (terrain : Terrain) (position : Vec3)
    (move_distance : ℚ) : Vec3 :=
  let range := alongXAxis position move_distance
  let colliding_block := (range.drop 1).findSome? terrain.block_at
  match colliding_block with
  | some block =>
      if 0 < move_distance then position.set_x (block.left - BUFFER_DISTANCE)
      else position.set_x (block.right + BUFFER_DISTANCE)
  | none => position.set_x (position.x + move_distance)

/-- Source `world.rs`: `World::check_for_collisions_in_y_axis`. -/
def check_for_collisions_in_y_axis (terrain : Terrain) (position : Vec3)
    (move_distance : ℚ) : Vec3 :=
  let range := alongYAxis position move_distance
  let colliding_block := (range.drop 1).findSome? terrain.block_at
  match colliding_block with
  | some block =>
      if 0 < move_distance then position.set_y (block.bottom - BUFFER_DISTANCE)
      else position.set_y (block.top + BUFFER_DISTANCE)
  | none => position.set_y (position.y + move_distance)

/-- Source `world.rs`: `World::check_for_collisions_in_z_axis`. -/
def check_for_collisions_in_z_axis (terrain : Terrain) (position : Vec3)
    (move_distance : ℚ) : Vec3 :=
  let range := alongZAxis position move_distance
  let colliding_block := (range.drop 1).findSome? terrain.block_at
  match colliding_block with
  | some block =>
      if 0 < move_distance then position.set_z (block.near - BUFFER_DISTANCE)
      else position.set_z (block.far + BUFFER_DISTANCE)
  | none => position.set_z (position.z + move_distance)

/-- Source `world.rs`: `World::check_for_collisions` — resolve x, then y, then z. -/
def check_for_collisions (terrain : Terrain) (position velocity : Vec3) : Vec3 :=
  let position := check_for_collisions_in_x_axis terrain position velocity.x
  let position := check_for_collisions_in_y_axis terrain position velocity.y
  check_for_collisions_in_z_axis terrain position velocity.z

/-- The inclusive integer range `(lo..=hi)` of Rust, as a list (ascending;
empty when `hi < lo`). -/
def intRangeIncl (lo hi : ℤ) : List ℤ :=
  (List.range (hi + 1 - lo).toNat).map fun i : ℕ => lo + (i : ℤ)

/-- Source `world.rs`: `Terrain::visible_block_positions` — for every column
(z outer, x inner), emit voxels from `min(height, min of the four neighbor
heights)` up to `height` inclusive, as `Vec3(x as f32, y as f32, z as f32)`. -/
def Terrain.visible_block_positions (t : Terrain) : List Vec3 :=
  (List.range t.z_depth).flatMap fun zn =>
    (List.range t.x_width).flatMap fun xn =>
      let x : ℤ := xn
      let z : ℤ := zn
      let y_max := t.height_at x z
      let min_neighbor_height :=
        min (min (t.height_at (x + 1) z) (t.height_at (x - 1) z))
          (min (t.height_at x (z + 1)) (t.height_at x (z - 1)))
      let y_min := min y_max min_neighbor_height
      (intRangeIncl y_min y_max).map fun y : ℤ => Vec3.mk (x : ℚ) (y : ℚ) (z : ℚ)

/-- Source `world.rs`: `MOUSE_SENSITIVITY = 0.01`. -/
def MOUSE_SENSITIVITY : ℚ := 1 / 100

/-- The exact value of the `f32` constant `std::f32::consts::FRAC_PI_2`
(`0x3FC90FDB`), the code's `MAX_PITCH` (and negated, `MIN_PITCH`). -/
def FRAC_PI_2 : ℚ := 13176795 / 8388608

/-- Rust `f32::clamp(min, max)`:
`if self < min { min } else if self > max { max } else { self }`. -/
def clampQ (v lo hi : ℚ) : ℚ := if v < lo then lo else if hi < v then hi else v

/-- Source `world.rs`: `Camera`. -/
structure Camera where
  position : Vec3
  velocity : Vec3
  heading : ℚ
  pitch : ℚ
deriving DecidableEq

/-- Source `world.rs`: the camera built by `World::new(x_width, y_height, z_depth)`:
position `((x_width / 2) as f32, (y_height + 1) as f32, 0.0)` (integer
division), zero velocity, heading 0, pitch 0. -/
def initialCamera (x_width y_height : ℕ) : Camera :=
  ⟨⟨((x_width / 2 : ℕ) : ℚ), ((y_height + 1 : ℕ) : ℚ), 0⟩, ⟨0, 0, 0⟩, 0, 0⟩

/-- Source `world.rs`: `World::update_camera_direction(dx, dy)` — heading
accumulates `dx * MOUSE_SENSITIVITY` unclamped; pitch accumulates
`dy * MOUSE_SENSITIVITY` and is clamped to `[-FRAC_PI_2, FRAC_PI_2]`. -/
def update_camera_direction (c : Camera) (dx dy : ℚ) : Camera :=
  { c with
    heading := c.heading + dx * MOUSE_SENSITIVITY
    pitch := clampQ (c.pitch + dy * MOUSE_SENSITIVITY) (-FRAC_PI_2) FRAC_PI_2 }

/-! Concrete instances used by counterexamples and witnesses below. -/

/-- A unit gradient pointing along +x. -/
def gPosX : Vec2 := ⟨1, 0⟩

/-- A concrete 2×2-cell heightmap (cell size 1) with unit gradients, used to
exhibit the `from_heightmap` storage-order / `height_at` read-order mismatch. -/
def hm1 : Heightmap := ⟨1, 2, 2, [gPosX, gPosX, gPosX, gPosX, gPosX, ⟨-1, 0⟩, gPosX, gPosX, gPosX]⟩

/-- The single-cell heightmap of the (ignored) unit test
`perlin_noise_single_grid_cell`: four unit gradients, one per corner of a
1×1 grid with cell size 1, pushed row-major (x fastest). -/
def hm2 : Heightmap := ⟨1, 1, 1, [⟨1, 0⟩, ⟨-1, 0⟩, ⟨0, 1⟩, ⟨0, -1⟩]⟩

/-- A 16×16-cell heightmap with cell size 16.0 and unit gradients, standing in
for `Heightmap::new(16.0, 16, 16)` (whose seeded gradients are unit vectors
with transcendental components; every theorem applied to this instance holds
independently of the gradient values). -/
def hmC3 : Heightmap := ⟨16, 16, 16, List.replicate 289 ⟨1, 0⟩⟩

/-- A concrete 4×1 terrain whose only solid column is `(2, 0)` (height 5). -/
def tW : Terrain := ⟨4, 1, [0, 0, 5, 0]⟩

/-- A concrete camera position inside cell `(0, 1, 0)`. -/
def pW : Vec3 := ⟨1 / 2, 3 / 2, 1 / 2⟩

/-- A concrete 2×1 terrain with heights 3 and 0. -/
def t6 : Terrain := ⟨2, 1, [3, 0]⟩

/-! Theorems. -/

/-- C9: `GlobalIndex::from(v)` floors each component (so it identifies the
voxel cell containing `v`, also for negative coordinates): each component of
the result is ≤ the corresponding coordinate, which is < the component plus
one; and on the spec's two examples, `(1.0, 2.8, 3.5) ↦ (1, 2, 3)` and
`(-0.2, -1.0, -1.1) ↦ (-1, -1, -2)` (floor, not truncation toward zero). -/
theorem c9_global_index_floor :
    (∀ v : Vec3,
      ((GlobalIndex.fromVec3 v).x : ℚ) ≤ v.x ∧ v.x < (GlobalIndex.fromVec3 v).x + 1 ∧
      ((GlobalIndex.fromVec3 v).y : ℚ) ≤ v.y ∧ v.y < (GlobalIndex.fromVec3 v).y + 1 ∧
      ((GlobalIndex.fromVec3 v).z : ℚ) ≤ v.z ∧ v.z < (GlobalIndex.fromVec3 v).z + 1) ∧
    GlobalIndex.fromVec3 ⟨1, 14 / 5, 7 / 2⟩ = ⟨1, 2, 3⟩ ∧
    GlobalIndex.fromVec3 ⟨-1 / 5, -1, -11 / 10⟩ = ⟨-1, -1, -2⟩ := by
  refine ⟨fun v => ?_, ?_, ?_⟩
  · simp only [GlobalIndex.fromVec3]
    exact ⟨Int.floor_le _, Int.lt_floor_add_one _, Int.floor_le _, Int.lt_floor_add_one _,
      Int.floor_le _, Int.lt_floor_add_one _⟩
  · simp only [GlobalIndex.fromVec3, GlobalIndex.mk.injEq]
    norm_num
  · simp only [GlobalIndex.fromVec3, GlobalIndex.mk.injEq]
    norm_num

/-- Lemma: `clampQ` always lands inside `[lo, hi]` when `lo ≤ hi`. -/
lemma clampQ_mem (v lo hi : ℚ) (h : lo ≤ hi) : lo ≤ clampQ v lo hi ∧ clampQ v lo hi ≤ hi := by
  unfold clampQ
  split
  · exact ⟨le_refl _, h⟩
  · split
    · exact ⟨h, le_refl _⟩
    · constructor <;> linarith

/-- Folding `update_camera_direction` keeps pitch inside the clamp interval. -/
lemma foldl_update_pitch_mem (deltas : List (ℚ × ℚ)) :
    ∀ c : Camera, -FRAC_PI_2 ≤ c.pitch → c.pitch ≤ FRAC_PI_2 →
      -FRAC_PI_2 ≤ (deltas.foldl (fun c p => update_camera_direction c p.1 p.2) c).pitch ∧
      (deltas.foldl (fun c p => update_camera_direction c p.1 p.2) c).pitch ≤ FRAC_PI_2 := by
  induction deltas with
  | nil => exact fun c h1 h2 => ⟨h1, h2⟩
  | cons hd tl ih =>
    intro c _ _
    have hF : -FRAC_PI_2 ≤ FRAC_PI_2 := by unfold FRAC_PI_2; norm_num
    have hc := clampQ_mem (c.pitch + hd.2 * MOUSE_SENSITIVITY) (-FRAC_PI_2) FRAC_PI_2 hF
    exact ih (update_camera_direction c hd.1 hd.2) hc.1 hc.2

/-- Folding `update_camera_direction` accumulates heading additively. -/
lemma foldl_update_heading (deltas : List (ℚ × ℚ)) :
    ∀ c : Camera,
      (deltas.foldl (fun c p => update_camera_direction c p.1 p.2) c).heading =
        c.heading + (deltas.map fun p => p.1 * MOUSE_SENSITIVITY).sum := by
  induction deltas with
  | nil => intro c; simp
  | cons hd tl ih =>
    intro c
    simp only [List.foldl_cons, List.map_cons, List.sum_cons, ih]
    simp only [update_camera_direction]
    ring

/-- C8: starting from the camera of a freshly constructed `World` (pitch 0,
heading 0), after any sequence of `update_camera_direction(dx, dy)` calls the
pitch lies in `[-FRAC_PI_2, FRAC_PI_2]` (the exact `f32` value of ±π/2 the
code clamps with), while the heading is exactly the unclamped sum of the
`dx * MOUSE_SENSITIVITY` increments. -/
theorem c8_pitch_clamped_heading_free (x_width y_height : ℕ) (deltas : List (ℚ × ℚ)) :
    -FRAC_PI_2 ≤ (deltas.foldl (fun c p => update_camera_direction c p.1 p.2)
        (initialCamera x_width y_height)).pitch ∧
    (deltas.foldl (fun c p => update_camera_direction c p.1 p.2)
        (initialCamera x_width y_height)).pitch ≤ FRAC_PI_2 ∧
    (deltas.foldl (fun c p => update_camera_direction c p.1 p.2)
        (initialCamera x_width y_height)).heading =
      (deltas.map fun p => p.1 * MOUSE_SENSITIVITY).sum := by
  have h0 : (initialCamera x_width y_height).pitch = 0 := rfl
  have hF : -FRAC_PI_2 ≤ (0 : ℚ) ∧ (0 : ℚ) ≤ FRAC_PI_2 := by unfold FRAC_PI_2; norm_num
  have hp := foldl_update_pitch_mem deltas (initialCamera x_width y_height)
    (h0 ▸ hF.1) (h0 ▸ hF.2)
  have hh := foldl_update_heading deltas (initialCamera x_width y_height)
  have h0h : (initialCamera x_width y_height).heading = 0 := rfl
  refine ⟨hp.1, hp.2, ?_⟩
  rw [hh, h0h, zero_add]

/-- Lemma: `from_heightmap` stores exactly `x_width * z_depth` column heights. -/
lemma from_heightmap_length (hm : Heightmap) (x_width y_height z_depth : ℕ) :
    (Terrain.from_heightmap hm x_width y_height z_depth).heights.length =
      x_width * z_depth := by
  simp [Terrain.from_heightmap, List.length_flatMap, Function.comp_def]

/-- The flat index of an in-range column is below `x_width * z_depth`. -/
lemma index_toNat_lt (w d : ℕ) (x z : ℤ) (h1 : 0 ≤ x) (h2 : x < (w : ℤ))
    (h3 : 0 ≤ z) (h4 : z < (d : ℤ)) : ((w : ℤ) * z + x).toNat < w * d := by
  have hlt : (w : ℤ) * z + x < (w : ℤ) * d :=
    calc (w : ℤ) * z + x < (w : ℤ) * z + w := by linarith
      _ = (w : ℤ) * (z + 1) := by ring
      _ ≤ (w : ℤ) * d := by
          apply mul_le_mul_of_nonneg_left (by omega) (by positivity)
  have h0 : 0 ≤ (w : ℤ) * z + x := by
    have : 0 ≤ (w : ℤ) * z := mul_nonneg (by positivity) h3
    linarith
  rw [Int.toNat_lt h0]
  push_cast
  exact hlt

/-- Distinct in-range columns get distinct flat indices. -/
lemma index_inj (w : ℕ) (x z x' z' : ℤ) (hx : 0 ≤ x) (hxw : x < (w : ℤ))
    (hx' : 0 ≤ x') (hxw' : x' < (w : ℤ))
    (h : (w : ℤ) * z + x = (w : ℤ) * z' + x') : x = x' ∧ z = z' := by
  have hw : (0 : ℤ) < w := lt_of_le_of_lt hx hxw
  have h' : x + (w : ℤ) * z = x' + (w : ℤ) * z' := by linarith
  have hz : z = z' := by
    have e := congrArg (· / (w : ℤ)) h'
    simp only [] at e
    rw [Int.add_mul_ediv_left x z (by omega), Int.add_mul_ediv_left x' z' (by omega),
      Int.ediv_eq_zero_of_lt hx hxw, Int.ediv_eq_zero_of_lt hx' hxw'] at e
    simpa using e
  subst hz
  exact ⟨by linarith, rfl⟩

/-- In-range flat indices of distinct columns stay distinct after `toNat`. -/
lemma index_toNat_inj (w : ℕ) (x z x' z' : ℤ) (hx : 0 ≤ x) (hxw : x < (w : ℤ))
    (hz : 0 ≤ z) (hx' : 0 ≤ x') (hxw' : x' < (w : ℤ)) (hz' : 0 ≤ z')
    (hne : ¬(x = x' ∧ z = z')) :
    ((w : ℤ) * z + x).toNat ≠ ((w : ℤ) * z' + x').toNat := by
  intro h
  apply hne
  have h0 : 0 ≤ (w : ℤ) * z + x := by
    have : 0 ≤ (w : ℤ) * z := mul_nonneg (by positivity) hz
    linarith
  have h0' : 0 ≤ (w : ℤ) * z' + x' := by
    have : 0 ≤ (w : ℤ) * z' := mul_nonneg (by positivity) hz'
    linarith
  have heq : (w : ℤ) * z + x = (w : ℤ) * z' + x' := by
    rw [← Int.toNat_of_nonneg h0, ← Int.toNat_of_nonneg h0', h]
  exact index_inj w x z x' z' hx hxw hx' hxw' heq

/-- C10: on a terrain built by `from_heightmap` the heights vector has exactly
`x_width * z_depth` entries, and for every coordinate pair passing the range
check of `height_at` / `decrement_height_at` / `block_at` the flat index
`(x_width * z + x) as usize` is strictly below the vector length, so the
queries and the mutation are total (no out-of-bounds panic is reachable for
any `i32` pair or `GlobalIndex`); moreover `decrement_height_at` never
changes the vector length, so the bound is preserved across mutations. -/
theorem c10_indexing_total (hm : Heightmap) (x_width y_height z_depth : ℕ) :
    (Terrain.from_heightmap hm x_width y_height z_depth).heights.length =
      x_width * z_depth ∧
    (∀ x z : ℤ, ¬ (x < 0 ∨ (x_width : ℤ) ≤ x ∨ z < 0 ∨ (z_depth : ℤ) ≤ z) →
      ((x_width : ℤ) * z + x).toNat <
        (Terrain.from_heightmap hm x_width y_height z_depth).heights.length) ∧
    (∀ (t : Terrain) (x z : ℤ),
      (t.decrement_height_at x z).heights.length = t.heights.length) := by
  refine ⟨from_heightmap_length hm x_width y_height z_depth, ?_, ?_⟩
  · intro x z h
    push_neg at h
    rw [from_heightmap_length hm x_width y_height z_depth]
    exact index_toNat_lt x_width z_depth x z h.1 h.2.1 h.2.2.1 h.2.2.2
  · intro t x z
    simp only [Terrain.decrement_height_at]
    split
    · split
      · simp [List.length_set]
      · rfl
    · rfl

/-- C10 witness: concrete dimensions and a concrete in-range pair. -/
theorem c10_indexing_total_witness :
    (Terrain.from_heightmap hm1 2 9 2).heights.length = 2 * 2 ∧
    ((2 : ℤ) * 1 + 1).toNat < (Terrain.from_heightmap hm1 2 9 2).heights.length := by
  refine ⟨(c10_indexing_total hm1 2 9 2).1, ?_⟩
  have h := (c10_indexing_total hm1 2 9 2).2.1 1 1 (by decide)
  exact_mod_cast h

/-- For an in-range pair, `height_at` reads the stored flat entry. -/
lemma height_at_in_range (t : Terrain) (x z : ℤ) (h1 : 0 ≤ x) (h2 : x < (t.x_width : ℤ))
    (h3 : 0 ≤ z) (h4 : z < (t.z_depth : ℤ)) :
    t.height_at x z = t.heights.getD ((t.x_width : ℤ) * z + x).toNat 0 := by
  unfold Terrain.height_at
  rw [if_neg]
  push_neg
  exact ⟨h1, h2, h3, h4⟩

/-- One `decrement_height_at` call keeps every stored height nonnegative. -/
lemma decrement_nonneg (t : Terrain) (x z : ℤ) (h : ∀ a ∈ t.heights, 0 ≤ a) :
    ∀ a ∈ (t.decrement_height_at x z).heights, 0 ≤ a := by
  simp only [Terrain.decrement_height_at]
  split
  · split
    case isTrue hpos =>
      intro a ha
      rcases List.mem_or_eq_of_mem_set ha with h1 | h1
      · exact h a h1
      · omega
    case isFalse => exact h
  · exact h

/-- Any sequence of `decrement_height_at` calls keeps stored heights ≥ 0. -/
lemma foldl_decrement_nonneg (calls : List (ℤ × ℤ)) :
    ∀ t : Terrain, (∀ a ∈ t.heights, 0 ≤ a) →
      ∀ a ∈ (calls.foldl (fun s c => s.decrement_height_at c.1 c.2) t).heights, 0 ≤ a := by
  induction calls with
  | nil => exact fun t h => h
  | cons c cs ih => exact fun t h => ih _ (decrement_nonneg t c.1 c.2 h)

/-- C6: `decrement_height_at(x, z)` lowers column `(x, z)` by exactly one when
`(x, z)` is in range and its stored height is positive (leaving every other
column's `height_at` unchanged), and is a no-op otherwise; consequently after
any sequence of `decrement_height_at` calls every stored height stays ≥ 0. -/
theorem c6_decrement_floor (t : Terrain)
    (hlen : t.heights.length = t.x_width * t.z_depth) :
    (∀ x z : ℤ, (0 ≤ x ∧ x < (t.x_width : ℤ) ∧ 0 ≤ z ∧ z < (t.z_depth : ℤ)) →
      0 < t.height_at x z →
        (t.decrement_height_at x z).height_at x z = t.height_at x z - 1 ∧
        ∀ a b : ℤ, ¬(a = x ∧ b = z) →
          (t.decrement_height_at x z).height_at a b = t.height_at a b) ∧
    (∀ x z : ℤ,
      ¬ ((0 ≤ x ∧ x < (t.x_width : ℤ) ∧ 0 ≤ z ∧ z < (t.z_depth : ℤ)) ∧
          0 < t.height_at x z) →
      t.decrement_height_at x z = t) ∧
    (∀ calls : List (ℤ × ℤ), (∀ a ∈ t.heights, 0 ≤ a) →
      ∀ a ∈ (calls.foldl (fun s c => s.decrement_height_at c.1 c.2) t).heights, 0 ≤ a) := by
  refine ⟨?_, ?_, ?_⟩
  · intro x z hin hpos
    obtain ⟨h1, h2, h3, h4⟩ := hin
    have hhe := height_at_in_range t x z h1 h2 h3 h4
    have hpos' : 0 < t.heights.getD ((t.x_width : ℤ) * z + x).toNat 0 := hhe ▸ hpos
    have hdec : t.decrement_height_at x z =
        { t with heights := (t.heights.set ((t.x_width : ℤ) * z + x).toNat
            (t.heights.getD ((t.x_width : ℤ) * z + x).toNat 0 - 1)) } := by
      simp only [Terrain.decrement_height_at]
      rw [if_pos ⟨h1, h2, h3, h4⟩, if_pos hpos']
    have hidx : ((t.x_width : ℤ) * z + x).toNat < t.heights.length := by
      rw [hlen]; exact index_toNat_lt t.x_width t.z_depth x z h1 h2 h3 h4
    constructor
    · rw [hhe, hdec]
      unfold Terrain.height_at
      dsimp only
      rw [if_neg (by push_neg; exact ⟨h1, h2, h3, h4⟩)]
      simp only [List.getD_eq_getElem?_getD, List.getElem?_set_self hidx, Option.getD_some]
    · intro a b hne
      by_cases hab : 0 ≤ a ∧ a < (t.x_width : ℤ) ∧ 0 ≤ b ∧ b < (t.z_depth : ℤ)
      · obtain ⟨g1, g2, g3, g4⟩ := hab
        have hne' : ((t.x_width : ℤ) * z + x).toNat ≠ ((t.x_width : ℤ) * b + a).toNat :=
          index_toNat_inj t.x_width x z a b h1 h2 h3 g1 g2 g3
            (fun hc => hne ⟨hc.1.symm, hc.2.symm⟩)
        rw [hdec]
        unfold Terrain.height_at
        dsimp only
        rw [if_neg (by push_neg; exact ⟨g1, g2, g3, g4⟩),
          if_neg (by push_neg; exact ⟨g1, g2, g3, g4⟩)]
        simp only [List.getD_eq_getElem?_getD]
        rw [List.getElem?_set_ne hne']
      · have hguard : a < 0 ∨ (t.x_width : ℤ) ≤ a ∨ b < 0 ∨ (t.z_depth : ℤ) ≤ b := by
          by_contra hc
          push_neg at hc
          exact hab ⟨hc.1, hc.2.1, hc.2.2.1, hc.2.2.2⟩
        have e1 : t.height_at a b = 0 := by
          unfold Terrain.height_at
          exact if_pos hguard
        have e2 : (t.decrement_height_at x z).height_at a b = 0 := by
          rw [hdec]
          unfold Terrain.height_at
          exact if_pos hguard
        rw [e1, e2]
  · intro x z hno
    simp only [Terrain.decrement_height_at]
    split
    case isTrue hin =>
      split
      case isTrue hpos' =>
        exfalso
        obtain ⟨h1, h2, h3, h4⟩ := hin
        have hhe := height_at_in_range t x z h1 h2 h3 h4
        exact hno ⟨⟨h1, h2, h3, h4⟩, by rw [hhe]; exact hpos'⟩
      case isFalse => rfl
    case isFalse => rfl
  · exact fun calls => foldl_decrement_nonneg calls t

/-- C6 witness: on the concrete terrain `t6` (heights `[3, 0]`),
decrementing the in-range positive column `(0, 0)` lowers it by one. -/
theorem c6_decrement_floor_witness :
    (t6.decrement_height_at 0 0).height_at 0 0 = t6.height_at 0 0 - 1 :=
  ((c6_decrement_floor t6 (by decide)).1 0 0 (by decide) (by decide)).1

/-- At any in-range position whose normalized coordinates are both integers
(a grid corner), `height_at` evaluates to exactly 1/2: the x0z0 contribution
is a dot product with a zero offset and both interpolation fractions are 0,
so the raw bilinear value is 0, and the final remap `(0 + 1) * 0.5` gives
1/2.  This holds for arbitrary gradients. -/
lemma height_at_corner_eq_half (hm : Heightmap) (p : Vec2)
    (h1 : ¬ hm.is_out_of_range p)
    (hx : ((⌊p.x / hm.cell_size⌋ : ℤ) : ℚ) = p.x / hm.cell_size)
    (hz : ((⌊p.y / hm.cell_size⌋ : ℤ) : ℚ) = p.y / hm.cell_size) :
    hm.height_at p = 1 / 2 := by
  have h1' := h1
  unfold Heightmap.is_out_of_range at h1'
  push_neg at h1'
  simp only [Heightmap.min_x, Heightmap.max_x, Heightmap.min_z, Heightmap.max_z] at h1'
  obtain ⟨ha, hb, hc, hd⟩ := h1'
  have hcs : 0 < hm.cell_size := by
    by_contra hle
    push_neg at hle
    nlinarith [mul_nonneg (neg_nonneg.mpr hle)
      (show (0 : ℚ) ≤ hm.num_x_cells from Nat.cast_nonneg _)]
  have hnx0 : 0 ≤ p.x / hm.cell_size := div_nonneg ha hcs.le
  have hnz0 : 0 ≤ p.y / hm.cell_size := div_nonneg hc hcs.le
  have htx : truncQ (p.x / hm.cell_size) = ⌊p.x / hm.cell_size⌋ := if_pos hnx0
  have htz : truncQ (p.y / hm.cell_size) = ⌊p.y / hm.cell_size⌋ := if_pos hnz0
  have hfx : fractQ (p.x / hm.cell_size) = 0 := by
    unfold fractQ
    rw [htx, hx]
    ring
  have hfz : fractQ (p.y / hm.cell_size) = 0 := by
    unfold fractQ
    rw [htz, hz]
    ring
  have hxiQ : ((toUsize (p.x / hm.cell_size) : ℕ) : ℚ) = p.x / hm.cell_size := by
    have h' : ((⌊p.x / hm.cell_size⌋.toNat : ℤ) : ℚ) = p.x / hm.cell_size := by
      rw [Int.toNat_of_nonneg (Int.floor_nonneg.mpr hnx0)]
      exact hx
    unfold toUsize
    rw [htx]
    exact_mod_cast h'
  have hziQ : ((toUsize (p.y / hm.cell_size) : ℕ) : ℚ) = p.y / hm.cell_size := by
    have h' : ((⌊p.y / hm.cell_size⌋.toNat : ℤ) : ℚ) = p.y / hm.cell_size := by
      rw [Int.toNat_of_nonneg (Int.floor_nonneg.mpr hnz0)]
      exact hz
    unfold toUsize
    rw [htz]
    exact_mod_cast h'
  have hnp : hm.normalize_position p = ⟨p.x / hm.cell_size, p.y / hm.cell_size⟩ := rfl
  have h00 : hm.height_at_x0z0 (hm.normalize_position p) = 0 := by
    rw [hnp]
    simp only [Heightmap.height_at_x0z0, Vec2.sub, Vec2.dot]
    rw [hxiQ, hziQ]
    ring
  simp only [Heightmap.height_at, if_neg h1]
  rw [hnp] at h00 ⊢
  simp only [hfx, hfz, interpolate, h00]
  ring

/-- C3 counterexample: on the concrete cell-size-16 gradient-noise heightmap
`hmC3`, `height_at((0.0, 0.0))` — an exact in-range grid corner — is not 0.0
(it is 1/2, because of the final `(height + 1.0) * 0.5` remap). -/
theorem c3_counterexample : ¬ (hmC3.height_at ⟨0, 0⟩ = 0) := by
  have h := height_at_corner_eq_half hmC3 ⟨0, 0⟩ (by
      unfold Heightmap.is_out_of_range hmC3
      simp only [Heightmap.min_x, Heightmap.max_x, Heightmap.min_z, Heightmap.max_z]
      norm_num)
    (by norm_num) (by norm_num)
  rw [h]
  norm_num

/-- C3 (amended): for every gradient-noise `Heightmap`, `height_at` at an
in-range position lying exactly on a grid corner (both normalized coordinates
integral) returns 0.5 — not 0.0 — since the raw corner value 0 is remapped by
`(height + 1.0) * 0.5`; in particular a `cell_size = 16.0` heightmap (such as
the one built from seed 32131, whatever its gradients) returns 0.5 at
`(0.0, 0.0)`. -/
theorem c3_grid_corner (hm : Heightmap) (p : Vec2)
    (h1 : ¬ hm.is_out_of_range p)
    (hx : ((⌊p.x / hm.cell_size⌋ : ℤ) : ℚ) = p.x / hm.cell_size)
    (hz : ((⌊p.y / hm.cell_size⌋ : ℤ) : ℚ) = p.y / hm.cell_size) :
    hm.height_at p = 1 / 2 :=
  height_at_corner_eq_half hm p h1 hx hz

/-- C3 witness: the corner theorem applied to the concrete heightmap `hmC3`
at the in-range corner `(0.0, 0.0)`. -/
theorem c3_grid_corner_witness : hmC3.height_at ⟨0, 0⟩ = 1 / 2 :=
  c3_grid_corner hmC3 ⟨0, 0⟩ (by
      unfold Heightmap.is_out_of_range hmC3
      simp only [Heightmap.min_x, Heightmap.max_x, Heightmap.min_z, Heightmap.max_z]
      norm_num)
    (by norm_num) (by norm_num)

/-- The fractional part of a nonnegative rational is in `[0, 1)`. -/
lemma fractQ_bounds (q : ℚ) (h : 0 ≤ q) : 0 ≤ fractQ q ∧ fractQ q < 1 := by
  unfold fractQ truncQ
  rw [if_pos h]
  constructor
  · have := Int.floor_le q
    linarith
  · have := Int.lt_floor_add_one q
    push_cast at this ⊢
    linarith

/-- For nonnegative `q`, the `as usize` cast is `q` minus its fractional part. -/
lemma toUsize_cast (q : ℚ) (h : 0 ≤ q) : ((toUsize q : ℕ) : ℚ) = q - fractQ q := by
  unfold toUsize fractQ truncQ
  rw [if_pos h]
  have h2 : (0 : ℤ) ≤ ⌊q⌋ := Int.floor_nonneg.mpr h
  have h3 : ((⌊q⌋.toNat : ℕ) : ℚ) = ((⌊q⌋ : ℤ) : ℚ) := by
    exact_mod_cast Int.toNat_of_nonneg h2
  rw [h3]
  ring

/-- A dot product with a vector of squared norm ≤ 1 is bounded by the sum of
the absolute values of the other vector's components. -/
lemma abs_dot_le (g : Vec2) (hg : g.x ^ 2 + g.y ^ 2 ≤ 1) (u v : ℚ) :
    |g.x * u + g.y * v| ≤ |u| + |v| := by
  have h1 : |g.x| ≤ 1 := by
    rw [abs_le]
    constructor <;> nlinarith [sq_nonneg g.y, sq_nonneg (g.x + 1), sq_nonneg (g.x - 1)]
  have h2 : |g.y| ≤ 1 := by
    rw [abs_le]
    constructor <;> nlinarith [sq_nonneg g.x, sq_nonneg (g.y + 1), sq_nonneg (g.y - 1)]
  calc |g.x * u + g.y * v| ≤ |g.x * u| + |g.y * v| := abs_add _ _
    _ = |g.x| * |u| + |g.y| * |v| := by rw [abs_mul, abs_mul]
    _ ≤ 1 * |u| + 1 * |v| := by
        have := abs_nonneg u
        have := abs_nonneg v
        gcongr
    _ = |u| + |v| := by ring

/-- Every gradient the lookup can return (stored or the model default) has
squared norm ≤ 1 whenever all stored gradients do. -/
lemma gradient_sq_le (hm : Heightmap) (hg : ∀ g ∈ hm.gradients, g.x ^ 2 + g.y ^ 2 ≤ 1)
    (xi zi : ℕ) :
    (hm.gradient_at_index xi zi).x ^ 2 + (hm.gradient_at_index xi zi).y ^ 2 ≤ 1 := by
  unfold Heightmap.gradient_at_index
  rcases lt_or_le (zi * hm.num_x_cells + xi) hm.gradients.length with h | h
  · rw [List.getD_eq_getElem _ _ h]
    exact hg _ (List.getElem_mem h)
  · rw [List.getD_eq_default _ _ h]
    norm_num

/-- Lemma: `height_at` of any heightmap whose gradients all have squared norm ≤ 1
stays inside `[0, 1]`. -/
lemma height_at_bounds (hm : Heightmap)
    (hg : ∀ g ∈ hm.gradients, g.x ^ 2 + g.y ^ 2 ≤ 1) (p : Vec2) :
    0 ≤ hm.height_at p ∧ hm.height_at p ≤ 1 := by
  by_cases hoor : hm.is_out_of_range p
  · simp only [Heightmap.height_at, if_pos hoor]
    norm_num
  · have h1' := hoor
    unfold Heightmap.is_out_of_range at h1'
    push_neg at h1'
    simp only [Heightmap.min_x, Heightmap.max_x, Heightmap.min_z, Heightmap.max_z] at h1'
    obtain ⟨ha, hb, hc, hd⟩ := h1'
    have hcs : 0 < hm.cell_size := by
      by_contra hle
      push_neg at hle
      nlinarith [mul_nonneg (neg_nonneg.mpr hle)
        (show (0 : ℚ) ≤ hm.num_x_cells from Nat.cast_nonneg _)]
    have hnx0 : 0 ≤ p.x / hm.cell_size := div_nonneg ha hcs.le
    have hnz0 : 0 ≤ p.y / hm.cell_size := div_nonneg hc hcs.le
    have hfxb := fractQ_bounds _ hnx0
    have hfzb := fractQ_bounds _ hnz0
    have hxiQ := toUsize_cast _ hnx0
    have hziQ := toUsize_cast _ hnz0
    have hnpx : (hm.normalize_position p).x = p.x / hm.cell_size := rfl
    have hnpy : (hm.normalize_position p).y = p.y / hm.cell_size := rfl
    have hval : hm.height_at p = (interpolate
        (interpolate (hm.height_at_x0z0 (hm.normalize_position p))
          (hm.height_at_x0z1 (hm.normalize_position p))
          (fractQ (hm.normalize_position p).y))
        (interpolate (hm.height_at_x1z0 (hm.normalize_position p))
          (hm.height_at_x1z1 (hm.normalize_position p))
          (fractQ (hm.normalize_position p).y))
        (fractQ (hm.normalize_position p).x) + 1) * (1 / 2) := by
      simp only [Heightmap.height_at, if_neg hoor]
    have hb00 : |hm.height_at_x0z0 (hm.normalize_position p)| ≤
        fractQ (p.x / hm.cell_size) + fractQ (p.y / hm.cell_size) := by
      have e : hm.height_at_x0z0 (hm.normalize_position p) =
          (hm.gradient_at_index (toUsize (p.x / hm.cell_size))
              (toUsize (p.y / hm.cell_size))).x * fractQ (p.x / hm.cell_size) +
          (hm.gradient_at_index (toUsize (p.x / hm.cell_size))
              (toUsize (p.y / hm.cell_size))).y * fractQ (p.y / hm.cell_size) := by
        simp only [Heightmap.height_at_x0z0, Vec2.sub, Vec2.dot, hnpx, hnpy]
        rw [hxiQ, hziQ]
        ring
      rw [e]
      calc |_ * fractQ (p.x / hm.cell_size) + _ * fractQ (p.y / hm.cell_size)| ≤
          |fractQ (p.x / hm.cell_size)| + |fractQ (p.y / hm.cell_size)| :=
            abs_dot_le _ (gradient_sq_le hm hg _ _) _ _
        _ = fractQ (p.x / hm.cell_size) + fractQ (p.y / hm.cell_size) := by
            rw [abs_of_nonneg hfxb.1, abs_of_nonneg hfzb.1]
    have hb10 : |hm.height_at_x1z0 (hm.normalize_position p)| ≤
        (1 - fractQ (p.x / hm.cell_size)) + fractQ (p.y / hm.cell_size) := by
      have e : hm.height_at_x1z0 (hm.normalize_position p) =
          (hm.gradient_at_index (toUsize (p.x / hm.cell_size) + 1)
              (toUsize (p.y / hm.cell_size))).x * (fractQ (p.x / hm.cell_size) - 1) +
          (hm.gradient_at_index (toUsize (p.x / hm.cell_size) + 1)
              (toUsize (p.y / hm.cell_size))).y * fractQ (p.y / hm.cell_size) := by
        simp only [Heightmap.height_at_x1z0, Vec2.sub, Vec2.dot, hnpx, hnpy]
        push_cast
        rw [hxiQ, hziQ]
        ring
      rw [e]
      calc |_ * (fractQ (p.x / hm.cell_size) - 1) + _ * fractQ (p.y / hm.cell_size)| ≤
          |fractQ (p.x / hm.cell_size) - 1| + |fractQ (p.y / hm.cell_size)| :=
            abs_dot_le _ (gradient_sq_le hm hg _ _) _ _
        _ = (1 - fractQ (p.x / hm.cell_size)) + fractQ (p.y / hm.cell_size) := by
            rw [abs_of_nonpos (by linarith [hfxb.2]), abs_of_nonneg hfzb.1]
            ring
    have hb01 : |hm.height_at_x0z1 (hm.normalize_position p)| ≤
        fractQ (p.x / hm.cell_size) + (1 - fractQ (p.y / hm.cell_size)) := by
      have e : hm.height_at_x0z1 (hm.normalize_position p) =
          (hm.gradient_at_index (toUsize (p.x / hm.cell_size))
              (toUsize (p.y / hm.cell_size) + 1)).x * fractQ (p.x / hm.cell_size) +
          (hm.gradient_at_index (toUsize (p.x / hm.cell_size))
              (toUsize (p.y / hm.cell_size) + 1)).y * (fractQ (p.y / hm.cell_size) - 1) := by
        simp only [Heightmap.height_at_x0z1, Vec2.sub, Vec2.dot, hnpx, hnpy]
        push_cast
        rw [hxiQ, hziQ]
        ring
      rw [e]
      calc |_ * fractQ (p.x / hm.cell_size) + _ * (fractQ (p.y / hm.cell_size) - 1)| ≤
          |fractQ (p.x / hm.cell_size)| + |fractQ (p.y / hm.cell_size) - 1| :=
            abs_dot_le _ (gradient_sq_le hm hg _ _) _ _
        _ = fractQ (p.x / hm.cell_size) + (1 - fractQ (p.y / hm.cell_size)) := by
            rw [abs_of_nonneg hfxb.1, abs_of_nonpos (by linarith [hfzb.2])]
            ring
    have hb11 : |hm.height_at_x1z1 (hm.normalize_position p)| ≤
        (1 - fractQ (p.x / hm.cell_size)) + (1 - fractQ (p.y / hm.cell_size)) := by
      have e : hm.height_at_x1z1 (hm.normalize_position p) =
          (hm.gradient_at_index (toUsize (p.x / hm.cell_size) + 1)
              (toUsize (p.y / hm.cell_size) + 1)).x * (fractQ (p.x / hm.cell_size) - 1) +
          (hm.gradient_at_index (toUsize (p.x / hm.cell_size) + 1)
              (toUsize (p.y / hm.cell_size) + 1)).y * (fractQ (p.y / hm.cell_size) - 1) := by
        simp only [Heightmap.height_at_x1z1, Vec2.sub, Vec2.dot, hnpx, hnpy]
        push_cast
        rw [hxiQ, hziQ]
        ring
      rw [e]
      calc |_ * (fractQ (p.x / hm.cell_size) - 1) + _ * (fractQ (p.y / hm.cell_size) - 1)| ≤
          |fractQ (p.x / hm.cell_size) - 1| + |fractQ (p.y / hm.cell_size) - 1| :=
            abs_dot_le _ (gradient_sq_le hm hg _ _) _ _
        _ = (1 - fractQ (p.x / hm.cell_size)) + (1 - fractQ (p.y / hm.cell_size)) := by
            rw [abs_of_nonpos (by linarith [hfxb.2]), abs_of_nonpos (by linarith [hfzb.2])]
            ring
    rw [hval, hnpx, hnpy]
    rw [abs_le] at hb00 hb10 hb01 hb11
    generalize hm.height_at_x0z0 (hm.normalize_position p) = c00 at hb00 ⊢
    generalize hm.height_at_x0z1 (hm.normalize_position p) = c01 at hb01 ⊢
    generalize hm.height_at_x1z0 (hm.normalize_position p) = c10 at hb10 ⊢
    generalize hm.height_at_x1z1 (hm.normalize_position p) = c11 at hb11 ⊢
    generalize fractQ (p.x / hm.cell_size) = fx at hb00 hb01 hb10 hb11 hfxb ⊢
    generalize fractQ (p.y / hm.cell_size) = fz at hb00 hb01 hb10 hb11 hfzb ⊢
    have w00 : (0 : ℚ) ≤ (1 - fx) * (1 - fz) :=
      mul_nonneg (by linarith [hfxb.2]) (by linarith [hfzb.2])
    have w01 : (0 : ℚ) ≤ (1 - fx) * fz :=
      mul_nonneg (by linarith [hfxb.2]) hfzb.1
    have w10 : (0 : ℚ) ≤ fx * (1 - fz) :=
      mul_nonneg hfxb.1 (by linarith [hfzb.2])
    have w11 : (0 : ℚ) ≤ fx * fz :=
      mul_nonneg hfxb.1 hfzb.1
    have u00 := mul_le_mul_of_nonneg_left hb00.2 w00
    have u01 := mul_le_mul_of_nonneg_left hb01.2 w01
    have u10 := mul_le_mul_of_nonneg_left hb10.2 w10
    have u11 := mul_le_mul_of_nonneg_left hb11.2 w11
    have l00 := mul_le_mul_of_nonneg_left hb00.1 w00
    have l01 := mul_le_mul_of_nonneg_left hb01.1 w01
    have l10 := mul_le_mul_of_nonneg_left hb10.1 w10
    have l11 := mul_le_mul_of_nonneg_left hb11.1 w11
    unfold interpolate
    have hsumU : (1 - fx) * ((1 - fz) * c00 + fz * c01) + fx * ((1 - fz) * c10 + fz * c11) ≤
        2 * fx * (1 - fx) + 2 * fz * (1 - fz) := by linarith [u00, u01, u10, u11]
    have hsumL : -(2 * fx * (1 - fx) + 2 * fz * (1 - fz)) ≤
        (1 - fx) * ((1 - fz) * c00 + fz * c01) + fx * ((1 - fz) * c10 + fz * c11) := by
      linarith [l00, l01, l10, l11]
    have hbound : 2 * fx * (1 - fx) + 2 * fz * (1 - fz) ≤ 1 := by
      nlinarith [sq_nonneg (2 * fx - 1), sq_nonneg (2 * fz - 1)]
    constructor
    · linarith
    · linarith

/-- C4: for every `Heightmap` whose gradients have squared norm ≤ 1 (as those
generated by `Heightmap::new` do — unit vectors from sampled angles),
`height_at` returns a value in `[0, 1]` at every position, and returns
exactly 0.0 outside the covered rectangle
`[0, cell_size · num_x_cells) × [0, cell_size · num_z_cells)`. -/
theorem c4_height_in_unit_interval (hm : Heightmap)
    (hg : ∀ g ∈ hm.gradients, g.x ^ 2 + g.y ^ 2 ≤ 1) (p : Vec2) :
    0 ≤ hm.height_at p ∧ hm.height_at p ≤ 1 ∧
    ((p.x < 0 ∨ hm.cell_size * hm.num_x_cells ≤ p.x ∨
        p.y < 0 ∨ hm.cell_size * hm.num_z_cells ≤ p.y) → hm.height_at p = 0) := by
  refine ⟨(height_at_bounds hm hg p).1, (height_at_bounds hm hg p).2, fun hout => ?_⟩
  have hoor : hm.is_out_of_range p := by
    unfold Heightmap.is_out_of_range Heightmap.min_x Heightmap.max_x Heightmap.min_z
      Heightmap.max_z
    exact hout
  simp only [Heightmap.height_at, if_pos hoor]

/-- C4 witness: the concrete heightmap `hmC3` (unit gradients) at the
in-range position `(8, 8)` and the out-of-range consequence at it. -/
theorem c4_height_in_unit_interval_witness :
    0 ≤ hmC3.height_at ⟨8, 8⟩ ∧ hmC3.height_at ⟨8, 8⟩ ≤ 1 ∧
    (((8 : ℚ) < 0 ∨ hmC3.cell_size * hmC3.num_x_cells ≤ 8 ∨
        (8 : ℚ) < 0 ∨ hmC3.cell_size * hmC3.num_z_cells ≤ 8) → hmC3.height_at ⟨8, 8⟩ = 0) :=
  c4_height_in_unit_interval hmC3 (by
      intro g hgm
      rw [hmC3] at hgm
      rw [List.eq_of_mem_replicate hgm]
      norm_num)
    ⟨8, 8⟩

/-- C1: `from_heightmap` pushes heights with `x` as the outer loop (flat
position `x * z_depth + z`), but `height_at` reads flat position
`x_width * z + x`; the two layouts disagree, so an in-range `height_at(x, z)`
does not return the height `from_heightmap` computed for column `(x, z)`.
Concretely, on the 2×2 world built from `hm1` with `y_height = 9`,
`height_at(0, 1)` returns the scaled height computed for column `(1, 0)`
(which is 5), while the height computed for column `(0, 1)` by sampling its
center `(0.5, 1.5)` is 6. -/
theorem c1_transposed_storage :
    (Terrain.from_heightmap hm1 2 9 2).height_at 0 1 = scaled_height hm1 (9 - 1) 1 0 ∧
    scaled_height hm1 (9 - 1) 1 0 = 5 ∧
    scaled_height hm1 (9 - 1) 0 1 = 6 := by
  have hs00 : scaled_height hm1 (9 - 1) 0 0 = 5 := by
    norm_num [scaled_height, Coordinates.center, Vec3.xz, Heightmap.height_at,
      Heightmap.is_out_of_range, Heightmap.min_x, Heightmap.max_x, Heightmap.min_z,
      Heightmap.max_z, Heightmap.normalize_position, Vec2.divScalar,
      Heightmap.height_at_x0z0, Heightmap.height_at_x0z1, Heightmap.height_at_x1z0,
      Heightmap.height_at_x1z1, Heightmap.gradient_at_index, Vec2.dot, Vec2.sub,
      toUsize, truncQ, fractQ, interpolate, hm1, gPosX, List.getD]
  have hs01 : scaled_height hm1 (9 - 1) 0 1 = 6 := by
    norm_num [scaled_height, Coordinates.center, Vec3.xz, Heightmap.height_at,
      Heightmap.is_out_of_range, Heightmap.min_x, Heightmap.max_x, Heightmap.min_z,
      Heightmap.max_z, Heightmap.normalize_position, Vec2.divScalar,
      Heightmap.height_at_x0z0, Heightmap.height_at_x0z1, Heightmap.height_at_x1z0,
      Heightmap.height_at_x1z1, Heightmap.gradient_at_index, Vec2.dot, Vec2.sub,
      toUsize, truncQ, fractQ, interpolate, hm1, gPosX, List.getD]
  have hs10 : scaled_height hm1 (9 - 1) 1 0 = 5 := by
    norm_num [scaled_height, Coordinates.center, Vec3.xz, Heightmap.height_at,
      Heightmap.is_out_of_range, Heightmap.min_x, Heightmap.max_x, Heightmap.min_z,
      Heightmap.max_z, Heightmap.normalize_position, Vec2.divScalar,
      Heightmap.height_at_x0z0, Heightmap.height_at_x0z1, Heightmap.height_at_x1z0,
      Heightmap.height_at_x1z1, Heightmap.gradient_at_index, Vec2.dot, Vec2.sub,
      toUsize, truncQ, fractQ, interpolate, hm1, gPosX, List.getD]
  have hs11 : scaled_height hm1 (9 - 1) 1 1 = 4 := by
    norm_num [scaled_height, Coordinates.center, Vec3.xz, Heightmap.height_at,
      Heightmap.is_out_of_range, Heightmap.min_x, Heightmap.max_x, Heightmap.min_z,
      Heightmap.max_z, Heightmap.normalize_position, Vec2.divScalar,
      Heightmap.height_at_x0z0, Heightmap.height_at_x0z1, Heightmap.height_at_x1z0,
      Heightmap.height_at_x1z1, Heightmap.gradient_at_index, Vec2.dot, Vec2.sub,
      toUsize, truncQ, fractQ, interpolate, hm1, gPosX, List.getD]
  have hlist : ((List.range 2).flatMap fun x =>
      (List.range 2).map fun z => scaled_height hm1 (9 - 1) x z) = [5, 6, 5, 4] := by
    have hr : List.range 2 = [0, 1] := rfl
    rw [hr]
    simp only [List.flatMap_cons, List.flatMap_nil, List.map_cons, List.map_nil,
      List.append_nil, List.cons_append, List.nil_append]
    rw [hs00, hs01, hs10, hs11]
  have ht : Terrain.from_heightmap hm1 2 9 2 = Terrain.mk 2 2 [5, 6, 5, 4] := by
    show Terrain.mk 2 2 ((List.range 2).flatMap fun x =>
      (List.range 2).map fun z => scaled_height hm1 (9 - 1) x z) = _
    rw [Terrain.mk.injEq]
    exact ⟨rfl, rfl, hlist⟩
  refine ⟨?_, hs10, hs01⟩
  rw [ht, hs10]
  decide

/-- C2: `gradient_at_index` uses row stride `num_x_cells`, not the
`num_x_cells + 1` stride of the stored `(num_x_cells + 1) × (num_z_cells + 1)`
row-major grid, so for grid corner `(xi, zi) = (0, 1)` of the single-cell
heightmap `hm2` the lookup returns `gradients[1]` = `(-1, 0)` instead of the
gradient `gradients[1·(num_x_cells+1)+0]` = `gradients[2]` = `(0, 1)` that
construction generated for that corner. -/
theorem c2_gradient_stride_mismatch :
    hm2.gradient_at_index 0 1 = ⟨-1, 0⟩ ∧
    hm2.gradients.getD (1 * (hm2.num_x_cells + 1) + 0) ⟨0, 0⟩ = ⟨0, 1⟩ ∧
    Vec2.mk (-1) 0 ≠ Vec2.mk 0 1 := by
  refine ⟨rfl, rfl, fun h => ?_⟩
  rw [Vec2.mk.injEq] at h
  norm_num at h

/-- Applying `find_map` with `block_at` over a cell list is `find?`ing an occupied cell
and wrapping it in a `Block`. -/
lemma findSome_block_at (t : Terrain) (l : List GlobalIndex) :
    l.findSome? t.block_at = (l.find? (occupied_at t)).map Block.mk := by
  induction l with
  | nil => rfl
  | cons hd tl ih =>
    by_cases h : hd.y ≤ t.height_at hd.x hd.z
    · simp [List.findSome?_cons, List.find?_cons, Terrain.block_at, occupied_at, h]
    · simp [List.findSome?_cons, List.find?_cons, Terrain.block_at, occupied_at, h, ih]

/-- C5: per-axis collision resolution.  For each axis: when scanning the
traversal range from the camera's cell to the cell at position + distance
(first cell skipped) finds an occupied cell `i`, the resolved coordinate is
the near face minus the 0.02 buffer for positive travel (strictly outside the
block) or the far face plus the buffer for non-positive travel; when no
occupied cell is found, the resolved coordinate is exactly the start
coordinate plus the full travel distance. -/
theorem c5_axis_collision_clamp (t : Terrain) (p : Vec3) (d : ℚ) :
    (∀ i : GlobalIndex,
      ((alongXAxis p d).drop 1).find? (occupied_at t) = some i →
        (check_for_collisions_in_x_axis t p d).x =
          (if 0 < d then (i.x : ℚ) - BUFFER_DISTANCE
            else ((i.x : ℚ) + 1) + BUFFER_DISTANCE) ∧
        (0 < d → (check_for_collisions_in_x_axis t p d).x < (i.x : ℚ)) ∧
        (d ≤ 0 → ((i.x : ℚ) + 1) < (check_for_collisions_in_x_axis t p d).x)) ∧
    (((alongXAxis p d).drop 1).find? (occupied_at t) = none →
      (check_for_collisions_in_x_axis t p d).x = p.x + d) ∧
    (∀ i : GlobalIndex,
      ((alongYAxis p d).drop 1).find? (occupied_at t) = some i →
        (check_for_collisions_in_y_axis t p d).y =
          (if 0 < d then (i.y : ℚ) - BUFFER_DISTANCE
            else ((i.y : ℚ) + 1) + BUFFER_DISTANCE)) ∧
    (((alongYAxis p d).drop 1).find? (occupied_at t) = none →
      (check_for_collisions_in_y_axis t p d).y = p.y + d) ∧
    (∀ i : GlobalIndex,
      ((alongZAxis p d).drop 1).find? (occupied_at t) = some i →
        (check_for_collisions_in_z_axis t p d).z =
          (if 0 < d then (i.z : ℚ) - BUFFER_DISTANCE
            else ((i.z : ℚ) + 1) + BUFFER_DISTANCE)) ∧
    (((alongZAxis p d).drop 1).find? (occupied_at t) = none →
      (check_for_collisions_in_z_axis t p d).z = p.z + d) := by
  have hbuf : (0 : ℚ) < BUFFER_DISTANCE := by norm_num [BUFFER_DISTANCE]
  refine ⟨?_, ?_, ?_, ?_, ?_, ?_⟩
  · intro i hf
    have hS : ((alongXAxis p d).drop 1).findSome? t.block_at = some (Block.mk i) := by
      rw [findSome_block_at, hf]
      rfl
    simp only [check_for_collisions_in_x_axis, hS]
    refine ⟨?_, ?_, ?_⟩
    · by_cases hd0 : 0 < d
      · simp [if_pos hd0, Vec3.set_x, Block.left]
      · simp [if_neg hd0, Vec3.set_x, Block.right]
    · intro hd0
      simp only [if_pos hd0, Vec3.set_x, Block.left]
      linarith
    · intro hd0
      simp only [if_neg (not_lt.mpr hd0), Vec3.set_x, Block.right]
      push_cast
      linarith
  · intro hf
    have hS : ((alongXAxis p d).drop 1).findSome? t.block_at = none := by
      rw [findSome_block_at, hf]
      rfl
    simp only [check_for_collisions_in_x_axis, hS]
    simp [Vec3.set_x]
  · intro i hf
    have hS : ((alongYAxis p d).drop 1).findSome? t.block_at = some (Block.mk i) := by
      rw [findSome_block_at, hf]
      rfl
    simp only [check_for_collisions_in_y_axis, hS]
    by_cases hd0 : 0 < d
    · simp [if_pos hd0, Vec3.set_y, Block.bottom]
    · simp [if_neg hd0, Vec3.set_y, Block.top]
  · intro hf
    have hS : ((alongYAxis p d).drop 1).findSome? t.block_at = none := by
      rw [findSome_block_at, hf]
      rfl
    simp only [check_for_collisions_in_y_axis, hS]
    simp [Vec3.set_y]
  · intro i hf
    have hS : ((alongZAxis p d).drop 1).findSome? t.block_at = some (Block.mk i) := by
      rw [findSome_block_at, hf]
      rfl
    simp only [check_for_collisions_in_z_axis, hS]
    by_cases hd0 : 0 < d
    · simp [if_pos hd0, Vec3.set_z, Block.near]
    · simp [if_neg hd0, Vec3.set_z, Block.far]
  · intro hf
    have hS : ((alongZAxis p d).drop 1).findSome? t.block_at = none := by
      rw [findSome_block_at, hf]
      rfl
    simp only [check_for_collisions_in_z_axis, hS]
    simp [Vec3.set_z]

/-- C5 witness: on the concrete terrain `tW` from camera position `pW` with
travel distance 3 along x, the scan finds the occupied cell `(2, 1, 0)` and
the resolved x coordinate is its near face minus the buffer. -/
theorem c5_axis_collision_clamp_witness :
    ((alongXAxis pW 3).drop 1).find? (occupied_at tW) = some ⟨2, 1, 0⟩ ∧
    (check_for_collisions_in_x_axis tW pW 3).x = 2 - BUFFER_DISTANCE := by
  have hfromA : GlobalIndex.fromVec3 pW = ⟨0, 1, 0⟩ := by
    simp only [GlobalIndex.fromVec3, pW, GlobalIndex.mk.injEq]
    norm_num
  have hfromB : GlobalIndex.fromVec3 (pW.map_x fun x => x + 3) = ⟨3, 1, 0⟩ := by
    simp only [GlobalIndex.fromVec3, pW, Vec3.map_x, GlobalIndex.mk.injEq]
    norm_num
  have h1 : alongXAxis pW 3 = [⟨0, 1, 0⟩, ⟨1, 1, 0⟩, ⟨2, 1, 0⟩, ⟨3, 1, 0⟩] := by
    simp only [alongXAxis, hfromA, hfromB]
    decide
  have hfind : ((alongXAxis pW 3).drop 1).find? (occupied_at tW) = some ⟨2, 1, 0⟩ := by
    rw [h1]
    decide
  refine ⟨hfind, ?_⟩
  have h := ((c5_axis_collision_clamp tW pW 3).1 ⟨2, 1, 0⟩ hfind).1
  rw [h]
  norm_num

/-- Membership in the model of Rust's inclusive range `(lo..=hi)`. -/
lemma mem_intRangeIncl {lo hi y : ℤ} : y ∈ intRangeIncl lo hi ↔ lo ≤ y ∧ y ≤ hi := by
  unfold intRangeIncl
  simp only [List.mem_map, List.mem_range]
  constructor
  · rintro ⟨i, hi, rfl⟩
    omega
  · intro h
    exact ⟨(y - lo).toNat, by omega, by omega⟩

/-- The inclusive integer range has no duplicates. -/
lemma nodup_intRangeIncl (lo hi : ℤ) : (intRangeIncl lo hi).Nodup := by
  unfold intRangeIncl
  refine List.Nodup.map ?_ (List.nodup_range _)
  intro a b h
  have h' : lo + (a : ℤ) = lo + (b : ℤ) := h
  omega

/-- C7: the list produced by `visible_block_positions` contains an integer
voxel `(a, b, c)` exactly when `(a, c)` is an in-range column and `b` lies
between `min(height_at(a, c), min of the four neighbor heights)` and
`height_at(a, c)` inclusive; every emitted element is such an integer voxel,
and each voxel is emitted exactly once (no duplicates). -/
theorem c7_visible_block_positions (t : Terrain) :
    (∀ a b c : ℤ,
      Vec3.mk (a : ℚ) (b : ℚ) (c : ℚ) ∈ t.visible_block_positions ↔
        (0 ≤ a ∧ a < (t.x_width : ℤ) ∧ 0 ≤ c ∧ c < (t.z_depth : ℤ) ∧
         min (t.height_at a c)
           (min (min (t.height_at (a + 1) c) (t.height_at (a - 1) c))
             (min (t.height_at a (c + 1)) (t.height_at a (c - 1)))) ≤ b ∧
         b ≤ t.height_at a c)) ∧
    (∀ v ∈ t.visible_block_positions, ∃ a b c : ℤ,
      v = Vec3.mk (a : ℚ) (b : ℚ) (c : ℚ)) ∧
    t.visible_block_positions.Nodup := by
  refine ⟨?_, ?_, ?_⟩
  · intro a b c
    simp only [Terrain.visible_block_positions, List.mem_flatMap, List.mem_range,
      List.mem_map, mem_intRangeIncl]
    constructor
    · rintro ⟨zn, hzn, xn, hxn, y, hy, heq⟩
      rw [Vec3.mk.injEq] at heq
      have ea : (xn : ℤ) = a := by exact_mod_cast heq.1
      have eb : y = b := by exact_mod_cast heq.2.1
      have ec : (zn : ℤ) = c := by exact_mod_cast heq.2.2
      rw [ea, ec, eb] at hy
      exact ⟨by omega, by omega, by omega, by omega, hy.1, hy.2⟩
    · rintro ⟨h1, h2, h3, h4, h5, h6⟩
      refine ⟨c.toNat, by omega, a.toNat, by omega, b, ?_, ?_⟩
      · have ea : ((a.toNat : ℕ) : ℤ) = a := by omega
        have ec : ((c.toNat : ℕ) : ℤ) = c := by omega
        rw [ea, ec]
        exact ⟨h5, h6⟩
      · have ea : ((a.toNat : ℕ) : ℚ) = (a : ℚ) := by
          have : ((a.toNat : ℕ) : ℤ) = a := by omega
          exact_mod_cast congrArg (fun n : ℤ => (n : ℚ)) this
        have ec : ((c.toNat : ℕ) : ℚ) = (c : ℚ) := by
          have : ((c.toNat : ℕ) : ℤ) = c := by omega
          exact_mod_cast congrArg (fun n : ℤ => (n : ℚ)) this
        rw [Vec3.mk.injEq]
        exact ⟨ea, rfl, ec⟩
  · intro v hv
    simp only [Terrain.visible_block_positions, List.mem_flatMap, List.mem_range,
      List.mem_map] at hv
    obtain ⟨zn, _, xn, _, y, _, rfl⟩ := hv
    exact ⟨xn, y, zn, by push_cast; rfl⟩
  · unfold Terrain.visible_block_positions
    refine List.nodup_flatMap.mpr ⟨?_, ?_⟩
    · intro zn _
      refine List.nodup_flatMap.mpr ⟨?_, ?_⟩
      · intro xn _
        refine List.Nodup.map ?_ (nodup_intRangeIncl _ _)
        intro y1 y2 h
        rw [Vec3.mk.injEq] at h
        exact_mod_cast h.2.1
      · refine (List.pairwise_lt_range _).imp ?_
        intro i j hij
        simp only [Function.onFun]
        intro v hvi hvj
        simp only [List.mem_map] at hvi hvj
        obtain ⟨y1, _, rfl⟩ := hvi
        obtain ⟨y2, _, heq⟩ := hvj
        rw [Vec3.mk.injEq] at heq
        have : (j : ℤ) = (i : ℤ) := by exact_mod_cast heq.1
        omega
    · refine (List.pairwise_lt_range _).imp ?_
      intro i j hij
      simp only [Function.onFun]
      intro v hvi hvj
      simp only [List.mem_flatMap, List.mem_range, List.mem_map] at hvi hvj
      obtain ⟨x1, _, y1, _, rfl⟩ := hvi
      obtain ⟨x2, _, y2, _, heq⟩ := hvj
      rw [Vec3.mk.injEq] at heq
      have : (j : ℤ) = (i : ℤ) := by exact_mod_cast heq.2.2
      omega

/-- C7 witness: on a concrete 2×2 terrain, voxel `(0, 0, 0)` satisfies the
characterization and is therefore in the emitted list. -/
theorem c7_visible_block_positions_witness :
    Vec3.mk ((0 : ℤ) : ℚ) ((0 : ℤ) : ℚ) ((0 : ℤ) : ℚ) ∈
      (Terrain.mk 2 2 [3, 0, 1, 2]).visible_block_positions :=
  ((c7_visible_block_positions (Terrain.mk 2 2 [3, 0, 1, 2])).1 0 0 0).mpr (by decide)

end Iridium
